import Mathlib

/-!
Verification of the comparable-selection and risk-scoring pipeline of
`app.py` (contingent property risk analysis).

The embedding models the numeric code over `ℚ` (Python floats are treated as
exact rationals; the binary-representation artifacts of IEEE floats are not
modelled).  Python's `round`, which rounds half to even, is embedded as
`pyRound`.  The only transcendental operation, `math.exp` in the 60-day sale
probability, is embedded over `ℝ` with `Real.exp`; everything else is
computable.
-/

namespace RiskApp

/-- Python `round` (banker's rounding, half to even) on an exact value. -/
def pyRound {α : Type*} [LinearOrderedField α] [FloorRing α] (x : α) : ℤ :=
  if Int.fract x < 1/2 then ⌊x⌋
  else if 1/2 < Int.fract x then ⌊x⌋ + 1
  else if ⌊x⌋ % 2 = 0 then ⌊x⌋ else ⌊x⌋ + 1

/-- Python `round(x, 1)`: round to one decimal place. -/
def round1 (x : ℚ) : ℚ := (pyRound (10 * x) : ℚ) / 10

/-- `np.median` on a list of rationals: sort, take the middle element
(odd length) or the average of the two middle elements (even length).
Only ever applied to non-empty lists (`safe_median` guards emptiness). -/
def npMedian (l : List ℚ) : ℚ :=
  let s := List.insertionSort (fun a b => a ≤ b) l
  let n := l.length
  if n % 2 = 1 then s.getD (n / 2) 0
  else (s.getD (n / 2 - 1) 0 + s.getD (n / 2) 0) / 2

/-- `safe_median` (app.py line 67): drop undefined values, return the median of
the rest, `None` if nothing remains.  The Python code also drops float NaN;
`ℚ` has no NaN, so "defined" is modelled by `Option`. -/
def safe_median (vals : List (Option ℚ)) : Option ℚ :=
  let clean := vals.filterMap id
  if clean = [] then none else some (npMedian clean)

/-- Python truthiness filter on an optional number: `None` and `0` are falsy
(`x if x else None`).  Used by the comp-list comprehensions
(`[c["price"] for c in comps if c["price"]]`) and the row builder of
`fetch_nearby_values_once` (`float(price) if price else None`). -/
def usable (o : Option ℚ) : Option ℚ :=
  match o with
  | some v => if v = 0 then none else some v
  | none => none

/-- `fmt_money` (app.py line 63): Python formats with `"${:,.0f}"`, i.e. the
value rounded to zero decimals, `$`-prefixed.  The comma digit-grouping of the
Python format is not reproduced; no claim depends on the rendered text. -/
def fmt_money (x : ℚ) : String := "$" ++ toString (pyRound x)

/-- Price deviation percentage (app.py lines 297-299):
computed only when `subject_price and comp_price` is truthy in Python,
i.e. both are defined and non-zero. -/
def price_diff : Option ℚ → Option ℚ → Option ℚ
  | some s, some c => if s = 0 ∨ c = 0 then none else some ((s - c) / c * 100)
  | _, _ => none

/-- DOM deviation percentage (app.py lines 304-306):
computed when `subject_dom is not None and comp_dom` holds in Python,
i.e. the subject DOM is defined (zero allowed) and the comp DOM is defined
and non-zero. -/
def dom_diff : Option ℚ → Option ℚ → Option ℚ
  | some s, some c => if c = 0 then none else some ((s - c) / c * 100)
  | _, _ => none

/-- Price penalty (app.py line 310): default `5.0` when the deviation is
undefined, otherwise `clamp(diff / 25 * 10, 0, 10)`. -/
def price_penalty : Option ℚ → ℚ
  | none => 5
  | some d => max 0 (min 10 (d / 25 * 10))

/-- DOM penalty (app.py line 311): default `3.0` when the deviation is
undefined, otherwise `clamp(diff / 150 * 10, 0, 10)`. -/
def dom_penalty : Option ℚ → ℚ
  | none => 3
  | some d => max 0 (min 10 (d / 150 * 10))

/-- Risk bands. -/
inductive Band where
  | low
  | moderate
  | high
  | unavailable
deriving DecidableEq

/-- Band thresholds (app.py line 314). -/
def bandOf (s : ℚ) : Band :=
  if s < 3 then Band.low else if s < 6 then Band.moderate else Band.high

def bandName : Band → String
  | Band.low => "Low"
  | Band.moderate => "Moderate"
  | Band.high => "High"
  | Band.unavailable => "Unavailable"

/-- 60-day sale probability (app.py line 315):
`int(round(1 / (1 + math.exp(0.55 * (score - 5))) * 100))`. -/
noncomputable def probOfScore (s : ℚ) : ℤ :=
  pyRound (1 / (1 + Real.exp (0.55 * ((s : ℝ) - 5))) * 100)

/-- Result quadruple of `classify_risk`: band, composite score, 60-day sale
probability, reasoning strings. -/
structure RiskResult where
  band : Band
  score : Option ℚ
  prob60 : Option ℤ
  reasons : List String

/-- Raw (unrounded) composite score computed at app.py line 312 from the
penalties: `0.7 * price_pen + 0.3 * dom_pen`. -/
def composite_raw (subject_price subject_dom : Option ℚ)
    (comp_prices comp_doms : List ℚ) : ℚ :=
  let comp_price := safe_median (comp_prices.map some)
  let comp_dom := if comp_doms = [] then none else safe_median (comp_doms.map some)
  0.7 * price_penalty (price_diff subject_price comp_price)
    + 0.3 * dom_penalty (dom_diff subject_dom comp_dom)

/-- `classify_risk` (app.py lines 289-318).  The argument lists carry the
already-filtered comp prices/DOMs exactly as the callers pass them.  The
reason strings reproduce the Python sentences' content and order; the float
format specifiers (`:+.1f` and the like) are rendered with plain `toString`,
which no claim inspects. -/
noncomputable def classify_risk (subject_price subject_dom : Option ℚ)
    (comp_prices comp_doms : List ℚ) : RiskResult :=
  if comp_prices = [] then
    ⟨Band.unavailable, none, none, ["No comparable properties found."]⟩
  else
    let comp_price := safe_median (comp_prices.map some)
    let comp_dom := if comp_doms = [] then none else safe_median (comp_doms.map some)
    let pd := price_diff subject_price comp_price
    let dd := dom_diff subject_dom comp_dom
    let priceReason :=
      match pd with
      | some d =>
          "Subject vs comps: " ++ fmt_money (subject_price.getD 0) ++ " vs " ++
            fmt_money (comp_price.getD 0) ++ " (" ++ toString d ++ "%)."
      | none => "Using comp medians as subject proxy (insufficient subject price)."
    let domReasons :=
      match dd with
      | some d =>
          ["Subject DOM vs comps: " ++ toString (subject_dom.getD 0) ++ " vs " ++
            toString (comp_dom.getD 0) ++ " (" ++ toString d ++ "%)."]
      | none => []
    let score := 0.7 * price_penalty pd + 0.3 * dom_penalty dd
    let band := bandOf score
    let prob := probOfScore score
    ⟨band, some (round1 score), some prob,
      [priceReason] ++ domReasons ++
        ["Composite score " ++ toString (round1 score) ++ "/10 -> " ++ bandName band,
         "Estimated " ++ toString prob ++ "% probability to sell within 60 days."]⟩

/-- One normalized comp row as built by `fetch_nearby_values_once`
(app.py lines 243-249). -/
structure Row where
  address : String
  price : Option ℚ
  dom : Option ℚ
  sqft : Option ℚ
deriving DecidableEq

/-- Row construction of `fetch_nearby_values_once` (app.py lines 243-249):
a row is appended only when the address is non-empty, and each numeric field
is kept only when truthy (`float(price) if price else None`, etc.). -/
def mk_row (addr : String) (price dom sqft : Option ℚ) : Option Row :=
  if addr = "" then none else some ⟨addr, usable price, usable dom, usable sqft⟩

/-- The deduplication key of `dedupe_props` (app.py line 259): the exact
`(address, price, sqft)` tuple. -/
def rowKey (r : Row) : String × Option ℚ × Option ℚ := (r.address, r.price, r.sqft)

def dedupeAux : List (String × Option ℚ × Option ℚ) → List Row → List Row
  | _, [] => []
  | seen, r :: rest =>
      if rowKey r ∈ seen then dedupeAux seen rest
      else r :: dedupeAux (rowKey r :: seen) rest

/-- `dedupe_props` (app.py lines 256-262): keep the first row for each
`(address, price, sqft)` key, preserving order. -/
def dedupe_props (rows : List Row) : List Row := dedupeAux [] rows

/-- `fetch_nearby_values` (app.py lines 264-279).  The provider call
`fetch_nearby_values_once` (HTTP + cache) is abstracted as a function `once`
from the radius to the normalized rows it returns (latitude, longitude and the
per-call `limit` cap are fixed for one analysis and absorbed into `once`). -/
def fetch_nearby_values (once : ℚ → List Row) (radius : ℚ) (limit : ℕ) :
    List Row :=
  let results0 := dedupe_props (once radius)
  if 8 ≤ results0.length then results0.take limit
  else
    let results1 := dedupe_props (results0 ++ once 3)
    if 8 ≤ results1.length then results1.take limit
    else (dedupe_props (results1 ++ once 5)).take limit

/-- `subject_from_comps` (app.py lines 284-287): subject price proxy is the
median of truthy comp prices; subject DOM proxy is `int(round(...))` of the
median of truthy comp DOMs, absent when no comp has a truthy DOM. -/
def subject_from_comps (comps : List Row) : Option ℚ × Option ℚ :=
  let prices := comps.filterMap (fun c => usable c.price)
  let doms := comps.filterMap (fun c => usable c.dom)
  (safe_median (prices.map some),
   if doms = [] then none
   else (safe_median (doms.map some)).map (fun m => (pyRound m : ℚ)))

/-- The scoring pipeline as wired in the UI (app.py lines 448-453): subject
proxies from comps, truthy-filtered comp price/DOM lists, then
`classify_risk`. -/
noncomputable def analyze (comps : List Row) : RiskResult :=
  let subject := subject_from_comps comps
  let comp_prices := comps.filterMap (fun c => usable c.price)
  let comp_doms := comps.filterMap (fun c => usable c.dom)
  classify_risk subject.1 subject.2 comp_prices comp_doms

/-! ## Definitions following the specification's words
These model what the spec states, for comparison against the code. -/

/-- Modelled from the spec: buyer-pool penalty tiers of §4.4 step 7. -/
def spec_pool_penalty : Option ℚ → ℚ
  | none => 4
  | some p =>
      if p < 500000 then 1.5
      else if p < 700000 then 4
      else if p < 900000 then 6.5 else 8

/-- Modelled from the spec: price penalty of §4.4 step 5 (default 4.0). -/
def spec_price_penalty : Option ℚ → ℚ
  | none => 4
  | some d => max 0 (min 10 (d / 25 * 10))

/-- Modelled from the spec: DOM penalty of §4.4 step 6 (default 2.5). -/
def spec_dom_penalty : Option ℚ → ℚ
  | none => 2.5
  | some d => max 0 (min 10 (d / 150 * 10))

/-- Modelled from the spec: three-term composite of §4.4 step 8, clamped to
`[0,10]` and rounded to one decimal. -/
def spec_composite (subject_price subject_dom : Option ℚ)
    (comp_prices comp_doms : List ℚ) : ℚ :=
  let comp_price := safe_median (comp_prices.map some)
  let comp_dom := if comp_doms = [] then none else safe_median (comp_doms.map some)
  round1 (max 0 (min 10
    (0.55 * spec_price_penalty (price_diff subject_price comp_price)
      + 0.25 * spec_dom_penalty (dom_diff subject_dom comp_dom)
      + 0.20 * spec_pool_penalty subject_price)))

/-- ASCII lowercasing of one character (used to model the spec's
"lowercased" address normalization). -/
def lowerChar (c : Char) : Char :=
  if 65 ≤ c.toNat ∧ c.toNat ≤ 90 then Char.ofNat (c.toNat + 32) else c

/-- Modelled from the spec: the normalized address used for deduplication
("lowercased trimmed address"): strip spaces at both ends and lowercase. -/
def spec_norm_addr (s : String) : String :=
  String.mk ((((s.data.dropWhile (fun c => c = ' ')).reverse.dropWhile
    (fun c => c = ' ')).reverse).map lowerChar)

/-! ## Concrete example data used by the counterexample theorems -/

/-- A row with a mixed-case address. -/
def rowMain : Row := ⟨"123 Main St", some 500000, none, none⟩

/-- The same address in upper case (same price and square footage). -/
def rowMainUpper : Row := ⟨"123 MAIN ST", some 500000, none, none⟩

/-- Eight distinct rows, none of which carries a price. -/
def unpricedRows : List Row :=
  [⟨"a1", none, none, none⟩, ⟨"a2", none, none, none⟩, ⟨"a3", none, none, none⟩,
   ⟨"a4", none, none, none⟩, ⟨"a5", none, none, none⟩, ⟨"a6", none, none, none⟩,
   ⟨"a7", none, none, none⟩, ⟨"a8", none, none, none⟩]

/-- A row that does carry a price. -/
def pricedRow : Row := ⟨"b", some 100000, none, none⟩

/-- A provider returning the eight unpriced rows at radius 2, the priced row
at radius 3 and nothing elsewhere. -/
def provider0 (r : ℚ) : List Row :=
  if r = 2 then unpricedRows else if r = 3 then [pricedRow] else []

/-! ## Helper lemmas -/

section Lemmas

variable {α : Type*} [LinearOrderedField α] [FloorRing α]

theorem floor_le_pyRound (x : α) : ⌊x⌋ ≤ pyRound x := by
  unfold pyRound
  split_ifs <;> omega

theorem pyRound_le_ceil (x : α) : pyRound x ≤ ⌈x⌉ := by
  unfold pyRound
  split_ifs with h1 h2 h3
  · exact Int.floor_le_ceil x
  all_goals
    have hfr : (0 : α) < Int.fract x := by linarith
  all_goals
    have hlt : ⌊x⌋ < ⌈x⌉ := by
      refine Int.lt_ceil.mpr ?_
      have := Int.fract_add_floor x
      linarith
  all_goals omega

theorem pyRound_mono {x y : α} (h : x ≤ y) : pyRound x ≤ pyRound y := by
  rcases lt_or_le ⌊x⌋ ⌊y⌋ with hf | hf
  · have h1 := pyRound_le_ceil x
    have h2 := Int.ceil_le_floor_add_one x
    have h3 := floor_le_pyRound y
    omega
  · have hfe : ⌊x⌋ = ⌊y⌋ := le_antisymm (Int.floor_le_floor h) hf
    have hr : Int.fract x ≤ Int.fract y := by
      simp only [Int.fract]
      have hcast : ((⌊x⌋ : α)) = ((⌊y⌋ : α)) := by rw [hfe]
      linarith
    unfold pyRound
    rw [hfe]
    split_ifs <;> first | omega | linarith

theorem pyRound_nonneg {x : α} (h : 0 ≤ x) : 0 ≤ pyRound x := by
  have h1 := floor_le_pyRound x
  have h2 : (0 : ℤ) ≤ ⌊x⌋ := Int.floor_nonneg.mpr h
  omega

theorem pyRound_le_of_le {x : α} {n : ℤ} (h : x ≤ (n : α)) : pyRound x ≤ n := by
  have h1 := pyRound_le_ceil x
  have h2 : ⌈x⌉ ≤ n := Int.ceil_le.mpr h
  omega

theorem round1_nonneg {x : ℚ} (h : 0 ≤ x) : 0 ≤ round1 x := by
  unfold round1
  have : (0 : ℤ) ≤ pyRound (10 * x) := pyRound_nonneg (by linarith)
  positivity

theorem round1_le_ten {x : ℚ} (h : x ≤ 10) : round1 x ≤ 10 := by
  unfold round1
  have : pyRound (10 * x) ≤ (100 : ℤ) := pyRound_le_of_le (by push_cast; linarith)
  have h2 : (pyRound (10 * x) : ℚ) ≤ (100 : ℚ) := by exact_mod_cast this
  linarith

theorem round1_mono {x y : ℚ} (h : x ≤ y) : round1 x ≤ round1 y := by
  unfold round1
  have : pyRound (10 * x) ≤ pyRound (10 * y) := pyRound_mono (by linarith)
  have h2 : (pyRound (10 * x) : ℚ) ≤ (pyRound (10 * y) : ℚ) := by exact_mod_cast this
  linarith

theorem price_penalty_nonneg (d : Option ℚ) : 0 ≤ price_penalty d := by
  cases d with
  | none => norm_num [price_penalty]
  | some v => simp [price_penalty, le_max_iff]

theorem price_penalty_le_ten (d : Option ℚ) : price_penalty d ≤ 10 := by
  cases d with
  | none => norm_num [price_penalty]
  | some v =>
      simp only [price_penalty]
      exact max_le (by norm_num) (min_le_left _ _)

theorem dom_penalty_nonneg (d : Option ℚ) : 0 ≤ dom_penalty d := by
  cases d with
  | none => norm_num [dom_penalty]
  | some v => simp [dom_penalty, le_max_iff]

theorem dom_penalty_le_ten (d : Option ℚ) : dom_penalty d ≤ 10 := by
  cases d with
  | none => norm_num [dom_penalty]
  | some v =>
      simp only [dom_penalty]
      exact max_le (by norm_num) (min_le_left _ _)

theorem price_penalty_mono {d1 d2 : ℚ} (h : d1 ≤ d2) :
    price_penalty (some d1) ≤ price_penalty (some d2) := by
  simp only [price_penalty]
  have : d1 / 25 * 10 ≤ d2 / 25 * 10 := by linarith
  exact max_le_max le_rfl (min_le_min le_rfl this)

theorem composite_raw_nonneg (sp sd : Option ℚ) (cps cds : List ℚ) :
    0 ≤ composite_raw sp sd cps cds := by
  unfold composite_raw
  have h1 := price_penalty_nonneg (price_diff sp (safe_median (cps.map some)))
  have h2 := dom_penalty_nonneg
    (dom_diff sd (if cds = [] then none else safe_median (cds.map some)))
  nlinarith

theorem composite_raw_le_ten (sp sd : Option ℚ) (cps cds : List ℚ) :
    composite_raw sp sd cps cds ≤ 10 := by
  unfold composite_raw
  have h1 := price_penalty_le_ten (price_diff sp (safe_median (cps.map some)))
  have h2 := dom_penalty_le_ten
    (dom_diff sd (if cds = [] then none else safe_median (cds.map some)))
  have h3 := price_penalty_nonneg (price_diff sp (safe_median (cps.map some)))
  have h4 := dom_penalty_nonneg
    (dom_diff sd (if cds = [] then none else safe_median (cds.map some)))
  nlinarith

theorem filterMap_id_map_some (l : List ℚ) : (l.map some).filterMap id = l := by
  induction l with
  | nil => rfl
  | cons a t ih => simp [List.filterMap_cons, ih]

theorem safe_median_map_some (l : List ℚ) (h : l ≠ []) :
    safe_median (l.map some) = some (npMedian l) := by
  simp only [safe_median, filterMap_id_map_some]
  rw [if_neg h]

theorem npMedian_pos (l : List ℚ) (hpos : ∀ x ∈ l, 0 < x) (hne : l ≠ []) :
    0 < npMedian l := by
  unfold npMedian
  dsimp only
  have hperm := List.perm_insertionSort (fun a b => a ≤ b) l
  have hlen : (List.insertionSort (fun a b => a ≤ b) l).length = l.length :=
    hperm.length_eq
  have hspos : ∀ x ∈ List.insertionSort (fun a b => a ≤ b) l, 0 < x :=
    fun x hx => hpos x (hperm.mem_iff.mp hx)
  have hn : 0 < l.length := List.length_pos.mpr hne
  split_ifs with hodd
  · have hi : l.length / 2 < (List.insertionSort (fun a b => a ≤ b) l).length := by
      omega
    rw [List.getD_eq_getElem _ _ hi]
    exact hspos _ (List.getElem_mem hi)
  · have h2 : 2 ≤ l.length := by omega
    have hi1 : l.length / 2 - 1 < (List.insertionSort (fun a b => a ≤ b) l).length := by
      omega
    have hi2 : l.length / 2 < (List.insertionSort (fun a b => a ≤ b) l).length := by
      omega
    rw [List.getD_eq_getElem _ _ hi1, List.getD_eq_getElem _ _ hi2]
    have p1 := hspos _ (List.getElem_mem hi1)
    have p2 := hspos _ (List.getElem_mem hi2)
    positivity

theorem bandOf_ne_unavailable (s : ℚ) : bandOf s ≠ Band.unavailable := by
  unfold bandOf
  split_ifs <;> simp

theorem classify_risk_band (sp sd : Option ℚ) (cps cds : List ℚ) (h : cps ≠ []) :
    (classify_risk sp sd cps cds).band = bandOf (composite_raw sp sd cps cds) := by
  rw [classify_risk, if_neg h]
  rfl

theorem classify_risk_score (sp sd : Option ℚ) (cps cds : List ℚ) (h : cps ≠ []) :
    (classify_risk sp sd cps cds).score =
      some (round1 (composite_raw sp sd cps cds)) := by
  rw [classify_risk, if_neg h]
  rfl

theorem classify_risk_prob60 (sp sd : Option ℚ) (cps cds : List ℚ) (h : cps ≠ []) :
    (classify_risk sp sd cps cds).prob60 =
      some (probOfScore (composite_raw sp sd cps cds)) := by
  rw [classify_risk, if_neg h]
  rfl

theorem classify_risk_reasons_length (sp sd : Option ℚ) (cps cds : List ℚ)
    (h : cps ≠ []) : 3 ≤ (classify_risk sp sd cps cds).reasons.length := by
  rw [classify_risk, if_neg h]
  simp only [List.length_append, List.length_cons, List.length_singleton]
  omega

theorem price_diff_none_left (c : Option ℚ) : price_diff none c = none := by
  cases c <;> rfl

theorem dom_diff_none_left (c : Option ℚ) : dom_diff none c = none := by
  cases c <;> rfl

theorem dom_diff_none_right (s : Option ℚ) : dom_diff s none = none := by
  cases s <;> rfl

theorem dom_diff_zero_right (s : Option ℚ) : dom_diff s (some 0) = none := by
  cases s with
  | none => rfl
  | some v => simp [dom_diff]

theorem exp_and_quarter_pow : (9 : ℝ) ≤ Real.exp 2.75 := by
  have h1 : (5/4 : ℝ) ≤ Real.exp (1/4) := by
    have := Real.add_one_le_exp (1/4 : ℝ)
    linarith
  have h2 : Real.exp (2.75 : ℝ) = Real.exp (1/4) ^ (11 : ℕ) := by
    rw [← Real.exp_nat_mul]
    norm_num
  rw [h2]
  calc (9 : ℝ) ≤ (5/4) ^ (11 : ℕ) := by norm_num
    _ ≤ Real.exp (1/4) ^ (11 : ℕ) := pow_le_pow_left₀ (by norm_num) h1 11

theorem probOfScore_at_five : probOfScore 5 = 50 := by
  unfold probOfScore
  have h : (0.55 * (((5 : ℚ) : ℝ) - 5)) = 0 := by norm_num
  rw [h, Real.exp_zero]
  norm_num [pyRound, Int.fract]

theorem probOfScore_at_zero : 90 ≤ probOfScore 0 := by
  unfold probOfScore
  have harg : (0.55 * (((0 : ℚ) : ℝ) - 5)) = -2.75 := by norm_num
  rw [harg]
  have hexp : Real.exp (-2.75 : ℝ) ≤ 1/9 := by
    rw [Real.exp_neg, show (1 : ℝ)/9 = 9⁻¹ by norm_num]
    exact inv_anti₀ (by norm_num) exp_and_quarter_pow
  have hpos : (0 : ℝ) < 1 + Real.exp (-2.75 : ℝ) := by positivity
  have hval : (90 : ℝ) ≤ 1 / (1 + Real.exp (-2.75 : ℝ)) * 100 := by
    rw [div_mul_eq_mul_div, le_div_iff₀ hpos]
    linarith
  have hfl : (90 : ℤ) ≤ ⌊1 / (1 + Real.exp (-2.75 : ℝ)) * 100⌋ :=
    Int.le_floor.mpr (by exact_mod_cast hval)
  have h2 := floor_le_pyRound (1 / (1 + Real.exp (-2.75 : ℝ)) * 100)
  omega

theorem probOfScore_at_ten : probOfScore 10 ≤ 10 := by
  unfold probOfScore
  have harg : (0.55 * (((10 : ℚ) : ℝ) - 5)) = 2.75 := by norm_num
  rw [harg]
  have h9 := exp_and_quarter_pow
  have hpos : (0 : ℝ) < 1 + Real.exp (2.75 : ℝ) := by positivity
  have hval : 1 / (1 + Real.exp (2.75 : ℝ)) * 100 ≤ (10 : ℝ) := by
    rw [div_mul_eq_mul_div, div_le_iff₀ hpos]
    linarith
  have hcl : ⌈1 / (1 + Real.exp (2.75 : ℝ)) * 100⌉ ≤ (10 : ℤ) :=
    Int.ceil_le.mpr (by exact_mod_cast hval)
  have h2 := pyRound_le_ceil (1 / (1 + Real.exp (2.75 : ℝ)) * 100)
  omega

theorem dedupeAux_sublist (rows : List Row) :
    ∀ seen, (dedupeAux seen rows).Sublist rows := by
  induction rows with
  | nil => intro seen; simp [dedupeAux]
  | cons r rest ih =>
      intro seen
      simp only [dedupeAux]
      split_ifs with hmem
      · exact (ih seen).cons r
      · exact (ih (rowKey r :: seen)).cons₂ r

theorem dedupeAux_key_unseen (rows : List Row) :
    ∀ seen, ∀ q ∈ dedupeAux seen rows, rowKey q ∉ seen := by
  induction rows with
  | nil => intro seen q hq; simp [dedupeAux] at hq
  | cons r rest ih =>
      intro seen q hq
      simp only [dedupeAux] at hq
      split_ifs at hq with hmem
      · exact ih seen q hq
      · rcases List.mem_cons.mp hq with h | h
        · rw [h]; exact hmem
        · have h3 := ih (rowKey r :: seen) q h
          exact fun hs => h3 (List.mem_cons_of_mem _ hs)

theorem dedupeAux_pairwise (rows : List Row) :
    ∀ seen, (dedupeAux seen rows).Pairwise (fun a b => rowKey a ≠ rowKey b) := by
  induction rows with
  | nil => intro seen; simp [dedupeAux]
  | cons r rest ih =>
      intro seen
      simp only [dedupeAux]
      split_ifs with hmem
      · exact ih seen
      · refine List.Pairwise.cons ?_ (ih (rowKey r :: seen))
        intro b hb he
        have h3 := dedupeAux_key_unseen rest (rowKey r :: seen) b hb
        exact h3 (by rw [← he]; exact List.mem_cons_self _ _)

theorem dedupeAux_covers (rows : List Row) :
    ∀ seen, ∀ r ∈ rows, rowKey r ∉ seen →
      ∃ q ∈ dedupeAux seen rows, rowKey q = rowKey r := by
  induction rows with
  | nil => intro seen r hr; simp at hr
  | cons a rest ih =>
      intro seen r hr hunseen
      simp only [dedupeAux]
      split_ifs with hmem
      · rcases List.mem_cons.mp hr with h | h
        · exact absurd (by rw [h]; exact hmem) hunseen
        · exact ih seen r h hunseen
      · rcases List.mem_cons.mp hr with h | h
        · exact ⟨a, List.mem_cons_self _ _, by rw [h]⟩
        · by_cases hk : rowKey r = rowKey a
          · exact ⟨a, List.mem_cons_self _ _, hk.symm⟩
          · obtain ⟨q, hq, hkey⟩ := ih (rowKey a :: seen) r h (by
              intro hs
              rcases List.mem_cons.mp hs with h2 | h2
              · exact hk h2
              · exact hunseen h2)
            exact ⟨q, List.mem_cons_of_mem _ hq, hkey⟩

theorem dedupeAux_first (rows : List Row) :
    ∀ seen, ∀ q ∈ dedupeAux seen rows,
      rows.find? (fun x => decide (rowKey x = rowKey q)) = some q := by
  induction rows with
  | nil => intro seen q hq; simp [dedupeAux] at hq
  | cons a rest ih =>
      intro seen q hq
      simp only [dedupeAux] at hq
      split_ifs at hq with hmem
      · have hqun := dedupeAux_key_unseen rest seen q hq
        have hne : ¬ (rowKey a = rowKey q) := fun he => hqun (by rw [← he]; exact hmem)
        rw [List.find?_cons_of_neg _ (by simp [hne])]
        exact ih seen q hq
      · rcases List.mem_cons.mp hq with h | h
        · rw [h]
          exact List.find?_cons_of_pos _ (by simp)
        · have hqun := dedupeAux_key_unseen rest (rowKey a :: seen) q h
          have hne : ¬ (rowKey a = rowKey q) :=
            fun he => hqun (by rw [← he]; exact List.mem_cons_self _ _)
          rw [List.find?_cons_of_neg _ (by simp [hne])]
          exact ih (rowKey a :: seen) q h

end Lemmas

/-! ## Claim theorems -/

/-- C1, counterexample: at subject price 550000 with one comp priced 500000 and
no DOM data, the code returns composite score 3.7, while the spec's three-term
weighted sum with buyer-pool tiers yields 3.6. -/
theorem c1_counterexample :
    (classify_risk (some 550000) none [500000] []).score = some (37/10) ∧
    spec_composite (some 550000) none [500000] [] = 36/10 ∧
    (37/10 : ℚ) ≠ 36/10 := by
  refine ⟨?_, ?_, by norm_num⟩
  · norm_num [classify_risk, safe_median, npMedian, List.insertionSort, List.orderedInsert,
      List.filterMap, price_diff, dom_diff, price_penalty, dom_penalty, round1, pyRound,
      Int.fract]
  · norm_num [spec_composite, safe_median, npMedian, List.insertionSort, List.orderedInsert,
      List.filterMap, price_diff, dom_diff, spec_price_penalty, spec_dom_penalty,
      spec_pool_penalty, round1, pyRound, Int.fract]

/-- C1 (amended): for every subject and comp set with at least one priced comp,
the composite risk score equals the two-term weighted sum
`0.7 × pricePenalty + 0.3 × domPenalty` rounded to one decimal; there is no
buyer-pool penalty term (and no extra clamp is applied at aggregation: the
weighted sum of `[0,10]` penalties already lies in `[0,10]`). -/
theorem c1_two_term_composite (sp sd : Option ℚ) (cps cds : List ℚ) (h : cps ≠ []) :
    (classify_risk sp sd cps cds).score =
      some (round1
        (0.7 * price_penalty (price_diff sp (safe_median (cps.map some)))
          + 0.3 * dom_penalty (dom_diff sd
              (if cds = [] then none else safe_median (cds.map some))))) := by
  rw [classify_risk_score sp sd cps cds h]
  rfl

theorem c1_two_term_composite_witness :
    (classify_risk (some 550000) none [500000] []).score =
      some (round1
        (0.7 * price_penalty (price_diff (some 550000) (safe_median ([500000].map some)))
          + 0.3 * dom_penalty (dom_diff none
              (if ([] : List ℚ) = [] then none else safe_median (([] : List ℚ).map some))))) :=
  c1_two_term_composite (some 550000) none [500000] [] (by simp)

/-- C2, counterexample: with the price deviation undefined the code's price
penalty is 5.0, not the claimed 4.0, and with the DOM deviation undefined the
DOM penalty is 3.0, not the claimed 2.5; the resulting composite for a
one-comp set with no subject data is 4.4 (= 0.7×5 + 0.3×3). -/
theorem c2_counterexample :
    price_penalty none = 5 ∧ (5 : ℚ) ≠ 4 ∧
    dom_penalty none = 3 ∧ (3 : ℚ) ≠ 5/2 ∧
    (classify_risk none none [500000] []).score = some (22/5) := by
  refine ⟨rfl, by norm_num, rfl, by norm_num, ?_⟩
  norm_num [classify_risk, safe_median, npMedian, List.insertionSort, List.orderedInsert,
    List.filterMap, price_diff, dom_diff, price_penalty, dom_penalty, round1, pyRound,
    Int.fract]

/-- C2 (amended): in the risk scorer, when the price deviation is undefined the
price penalty is the fixed default 5.0, and when the DOM deviation is undefined
the DOM penalty is the fixed default 3.0; when defined, the penalties are
`clamp(priceDeviationPct / 25 × 10, 0, 10)` and
`clamp(domDeviationPct / 150 × 10, 0, 10)` respectively; with both deviations
undefined the composite score is `round1(0.7×5 + 0.3×3) = 4.4`. -/
theorem c2_penalty_rules (d : ℚ) :
    price_penalty none = 5 ∧ dom_penalty none = 3 ∧
    price_penalty (some d) = max 0 (min 10 (d / 25 * 10)) ∧
    dom_penalty (some d) = max 0 (min 10 (d / 150 * 10)) ∧
    (∀ cps : List ℚ, cps ≠ [] →
      (classify_risk none none cps []).score = some (22/5)) := by
  refine ⟨rfl, rfl, rfl, rfl, ?_⟩
  intro cps h
  rw [classify_risk_score none none cps [] h]
  unfold composite_raw
  dsimp only
  rw [price_diff_none_left, dom_diff_none_left]
  norm_num [price_penalty, dom_penalty, round1, pyRound, Int.fract]

theorem c2_penalty_rules_witness :
    (classify_risk none none [1] []).score = some (22/5) :=
  (c2_penalty_rules 0).2.2.2.2 [1] (by simp)

/-- C3: the risk band is Unavailable iff the comp set contributes zero usable
(truthy) prices, and exactly in that case the composite score and the 60-day
sale probability are absent and the reasoning is the single string
"No comparable properties found."; the outcome is an ordinary returned value
of the total function `analyze`, not a raised error. -/
theorem c3_unavailable_iff (comps : List Row) :
    ((analyze comps).band = Band.unavailable ↔
      comps.filterMap (fun c => usable c.price) = []) ∧
    (comps.filterMap (fun c => usable c.price) = [] →
      analyze comps = ⟨Band.unavailable, none, none, ["No comparable properties found."]⟩) := by
  have hmain : comps.filterMap (fun c => usable c.price) = [] →
      analyze comps = ⟨Band.unavailable, none, none, ["No comparable properties found."]⟩ := by
    intro he
    simp only [analyze]
    rw [he, classify_risk, if_pos rfl]
  refine ⟨⟨?_, fun he => by rw [hmain he]⟩, hmain⟩
  intro hband
  by_contra hne
  have h2 : (analyze comps).band = bandOf (composite_raw (subject_from_comps comps).1
      (subject_from_comps comps).2 (comps.filterMap (fun c => usable c.price))
      (comps.filterMap (fun c => usable c.dom))) := by
    simp only [analyze]
    exact classify_risk_band _ _ _ _ hne
  rw [h2] at hband
  exact bandOf_ne_unavailable _ hband

theorem c3_unavailable_iff_witness :
    analyze [] = ⟨Band.unavailable, none, none, ["No comparable properties found."]⟩ :=
  (c3_unavailable_iff []).2 rfl

/-- C4: for every scored assessment the 60-day sale probability equals
`round(1 / (1 + e^(0.55 × (score − 5))) × 100)` of the raw composite score
(`probOfScore`); at score 5 it is exactly 50, at score 0 it is at least 90 and
at score 10 it is at most 10. -/
theorem c4_sale_probability :
    (∀ sp sd : Option ℚ, ∀ cps cds : List ℚ, cps ≠ [] →
      (classify_risk sp sd cps cds).prob60 =
        some (probOfScore (composite_raw sp sd cps cds))) ∧
    probOfScore 5 = 50 ∧ 90 ≤ probOfScore 0 ∧ probOfScore 10 ≤ 10 :=
  ⟨fun sp sd cps cds h => classify_risk_prob60 sp sd cps cds h,
    probOfScore_at_five, probOfScore_at_zero, probOfScore_at_ten⟩

theorem c4_sale_probability_witness :
    (classify_risk none none [1] []).prob60 =
      some (probOfScore (composite_raw none none [1] [])) :=
  c4_sale_probability.1 none none [1] [] (by simp)

/-- C5: for every comp set containing at least one priced comp, the composite
score returned by the risk scorer lies in `[0, 10]`. -/
theorem c5_score_range (sp sd : Option ℚ) (cps cds : List ℚ) (h : cps ≠ []) :
    ∃ s : ℚ, (classify_risk sp sd cps cds).score = some s ∧ 0 ≤ s ∧ s ≤ 10 :=
  ⟨round1 (composite_raw sp sd cps cds), classify_risk_score sp sd cps cds h,
    round1_nonneg (composite_raw_nonneg sp sd cps cds),
    round1_le_ten (composite_raw_le_ten sp sd cps cds)⟩

theorem c5_score_range_witness :
    ∃ s : ℚ, (classify_risk none none [1] []).score = some s ∧ 0 ≤ s ∧ s ≤ 10 :=
  c5_score_range none none [1] [] (by simp)

/-- C6: holding the comp set (with positive prices, per the data model), the
subject DOM and the comp DOMs fixed, increasing a positive subject price never
decreases the composite score. -/
theorem c6_price_monotone (sd : Option ℚ) (cps cds : List ℚ) (sp1 sp2 : ℚ)
    (hpos : ∀ p ∈ cps, 0 < p) (hne : cps ≠ []) (h1 : 0 < sp1) (h12 : sp1 ≤ sp2) :
    ∃ q1 q2 : ℚ,
      (classify_risk (some sp1) sd cps cds).score = some q1 ∧
      (classify_risk (some sp2) sd cps cds).score = some q2 ∧ q1 ≤ q2 := by
  have hm := npMedian_pos cps hpos hne
  have h2 : 0 < sp2 := lt_of_lt_of_le h1 h12
  refine ⟨_, _, classify_risk_score _ sd cps cds hne, classify_risk_score _ sd cps cds hne, ?_⟩
  apply round1_mono
  unfold composite_raw
  dsimp only
  rw [safe_median_map_some cps hne]
  have hd1 : price_diff (some sp1) (some (npMedian cps)) =
      some ((sp1 - npMedian cps) / npMedian cps * 100) := by
    simp [price_diff, h1.ne', hm.ne']
  have hd2 : price_diff (some sp2) (some (npMedian cps)) =
      some ((sp2 - npMedian cps) / npMedian cps * 100) := by
    simp [price_diff, h2.ne', hm.ne']
  rw [hd1, hd2]
  have hdd : (sp1 - npMedian cps) / npMedian cps ≤ (sp2 - npMedian cps) / npMedian cps :=
    (div_le_div_iff_of_pos_right hm).mpr (by linarith)
  have hple := @price_penalty_mono ((sp1 - npMedian cps) / npMedian cps * 100)
    ((sp2 - npMedian cps) / npMedian cps * 100) (by linarith)
  linarith

theorem c6_price_monotone_witness :
    ∃ q1 q2 : ℚ,
      (classify_risk (some 500000) none [400000] []).score = some q1 ∧
      (classify_risk (some 600000) none [400000] []).score = some q2 ∧ q1 ≤ q2 :=
  c6_price_monotone none [400000] [] 500000 600000
    (by intro p hp; rw [List.mem_singleton] at hp; rw [hp]; norm_num)
    (by simp) (by norm_num) (by norm_num)

/-- C7, counterexample: "123 Main St" and "123 MAIN ST" have the same
lowercased trimmed address, yet `dedupe_props` keeps both rows, because the
code deduplicates by the exact `(address, price, sqft)` tuple and not by
normalized address. -/
theorem c7_counterexample :
    spec_norm_addr rowMain.address = spec_norm_addr rowMainUpper.address ∧
    dedupe_props [rowMain, rowMainUpper] = [rowMain, rowMainUpper] := by
  constructor
  · decide
  · simp [dedupe_props, dedupeAux, rowKey, rowMain, rowMainUpper]

/-- C7 (amended): the aggregated comparable set is deduplicated by the exact
`(address, price, sqft)` tuple with the first occurrence winning and insertion
order preserved (the output is an order-preserving sublist, no two retained
elements share a key, every input key has a retained representative, and each
retained row is the first input row bearing its key). -/
theorem c7_dedupe_exact_key (rows : List Row) :
    (dedupe_props rows).Sublist rows ∧
    (dedupe_props rows).Pairwise (fun a b => rowKey a ≠ rowKey b) ∧
    (∀ r ∈ rows, ∃ q ∈ dedupe_props rows, rowKey q = rowKey r) ∧
    (∀ q ∈ dedupe_props rows,
      rows.find? (fun x => decide (rowKey x = rowKey q)) = some q) := by
  refine ⟨dedupeAux_sublist rows [], dedupeAux_pairwise rows [], ?_, ?_⟩
  · intro r hr
    exact dedupeAux_covers rows [] r hr (by simp)
  · intro q hq
    exact dedupeAux_first rows [] q hq

theorem c7_dedupe_exact_key_witness :
    (dedupe_props [rowMain]).Sublist [rowMain] :=
  (c7_dedupe_exact_key [rowMain]).1

/-- C8, counterexample: at the first radius the provider returns eight rows
none of which has a price; the aggregator stops immediately (8 total records
reached) and never queries the wider radius that holds a priced row — so the
stopping rule counts all gathered records against a threshold of 8, not priced
records against `want = 6`. -/
theorem c8_counterexample :
    fetch_nearby_values provider0 2 25 = unpricedRows ∧
    (unpricedRows.filter (fun c => c.price.isSome)).length = 0 ∧
    pricedRow ∈ provider0 3 ∧
    pricedRow ∉ fetch_nearby_values provider0 2 25 := by
  have hp2 : provider0 2 = unpricedRows := by norm_num [provider0]
  have hp3 : provider0 3 = [pricedRow] := by norm_num [provider0]
  have hdd : dedupe_props unpricedRows = unpricedRows := by
    simp [dedupe_props, dedupeAux, rowKey, unpricedRows]
  have hfetch : fetch_nearby_values provider0 2 25 = unpricedRows := by
    simp only [fetch_nearby_values]
    rw [hp2, hdd]
    rw [if_pos (by norm_num [unpricedRows])]
    exact List.take_of_length_le (by norm_num [unpricedRows])
  refine ⟨hfetch, by simp [unpricedRows], by rw [hp3]; exact List.mem_singleton_self _, ?_⟩
  rw [hfetch]
  simp [unpricedRows, pricedRow]

/-- C8 (amended): the aggregator stops expanding the radius as soon as the
count of deduplicated gathered records (priced or not) reaches 8; otherwise it
continues through the radius sequence (caller radius, then 3.0, then 5.0
miles) and returns whatever it found — possibly empty — truncated to
`limit`. -/
theorem c8_radius_expansion (once : ℚ → List Row) (radius : ℚ) (limit : ℕ) :
    (8 ≤ (dedupe_props (once radius)).length →
      fetch_nearby_values once radius limit = (dedupe_props (once radius)).take limit) ∧
    ((dedupe_props (once radius)).length < 8 →
      8 ≤ (dedupe_props (dedupe_props (once radius) ++ once 3)).length →
      fetch_nearby_values once radius limit =
        (dedupe_props (dedupe_props (once radius) ++ once 3)).take limit) ∧
    ((dedupe_props (once radius)).length < 8 →
      (dedupe_props (dedupe_props (once radius) ++ once 3)).length < 8 →
      fetch_nearby_values once radius limit =
        (dedupe_props (dedupe_props (dedupe_props (once radius) ++ once 3) ++ once 5)).take limit) ∧
    (fetch_nearby_values once radius limit).length ≤ limit ∧
    fetch_nearby_values (fun _ => []) radius limit = [] := by
  refine ⟨?_, ?_, ?_, ?_, ?_⟩
  · intro h8
    simp only [fetch_nearby_values]
    rw [if_pos h8]
  · intro hlt h8
    simp only [fetch_nearby_values]
    rw [if_neg (by omega), if_pos h8]
  · intro hlt1 hlt2
    simp only [fetch_nearby_values]
    rw [if_neg (by omega), if_neg (by omega)]
  · simp only [fetch_nearby_values]
    split_ifs <;> exact List.length_take_le _ _
  · simp [fetch_nearby_values, dedupe_props, dedupeAux]

theorem c8_radius_expansion_witness :
    fetch_nearby_values provider0 2 25 = (dedupe_props (provider0 2)).take 25 :=
  (c8_radius_expansion provider0 2 25).1 (by
    norm_num [provider0]
    simp [dedupe_props, dedupeAux, rowKey, unpricedRows])

/-- C9: `safe_median` returns the median of only the defined values of its
input (`Option`-definedness models defined-and-non-NaN: `ℚ` has no NaN) and
returns none when no valid values remain; on `[100000, 110000, 1000000]` it
returns the median 110000, which differs from the mean. -/
theorem c9_robust_median (vals : List (Option ℚ)) :
    (safe_median vals = none ↔ vals.filterMap id = []) ∧
    (vals.filterMap id ≠ [] → safe_median vals = some (npMedian (vals.filterMap id))) ∧
    safe_median ([100000, 110000, 1000000].map some) = some 110000 ∧
    (110000 : ℚ) ≠ (100000 + 110000 + 1000000) / 3 := by
  refine ⟨?_, ?_, ?_, by norm_num⟩
  · unfold safe_median
    dsimp only
    split_ifs with hc
    · simp [hc]
    · simp [hc]
  · intro h
    unfold safe_median
    dsimp only
    rw [if_neg h]
  · rw [safe_median_map_some _ (by simp)]
    norm_num [npMedian, List.insertionSort, List.orderedInsert]

theorem c9_robust_median_witness :
    safe_median ([some 1, none] : List (Option ℚ)) =
      some (npMedian (([some 1, none] : List (Option ℚ)).filterMap id)) :=
  (c9_robust_median [some 1, none]).2.1 (by simp)

/-- C10: a zero-valued numeric field is treated as absent throughout the
pipeline — adding a comp with price 0 and DOM 0 changes nothing, a comp set
whose prices are all missing or 0 yields the Unavailable band, the row builder
nulls out zero price and DOM, and a comp-DOM list whose median is 0 behaves
exactly like an empty one (default DOM penalty applies). -/
theorem c10_zero_numeric_absent :
    (∀ comps : List Row, ∀ addr : String, ∀ sq : Option ℚ,
      analyze (⟨addr, some 0, some 0, sq⟩ :: comps) = analyze comps) ∧
    (∀ comps : List Row, (∀ c ∈ comps, c.price = none ∨ c.price = some 0) →
      (analyze comps).band = Band.unavailable) ∧
    (∀ a : String, ∀ s : Option ℚ, a ≠ "" →
      mk_row a (some 0) (some 0) s = some ⟨a, none, none, usable s⟩) ∧
    (∀ sp sd : Option ℚ, ∀ cps : List ℚ,
      classify_risk sp sd cps [0] = classify_risk sp sd cps []) := by
  refine ⟨?_, ?_, ?_, ?_⟩
  · intro comps addr sq
    simp only [analyze, subject_from_comps, List.filterMap_cons]
    norm_num [usable]
  · intro comps hz
    have he : comps.filterMap (fun c => usable c.price) = [] := by
      refine List.filterMap_eq_nil_iff.mpr ?_
      intro c hc
      rcases hz c hc with h | h <;> simp [usable, h]
    simp only [analyze]
    rw [he, classify_risk, if_pos rfl]
  · intro a s ha
    simp [mk_row, ha, usable]
  · intro sp sd cps
    by_cases hc : cps = []
    · rw [classify_risk, classify_risk, if_pos hc, if_pos hc]
    · rw [classify_risk, classify_risk, if_neg hc, if_neg hc]
      dsimp only
      have h1 : (if ([0] : List ℚ) = [] then (none : Option ℚ)
          else safe_median (([0] : List ℚ).map some)) = some 0 := by
        rw [if_neg (by simp), safe_median_map_some [0] (by simp)]
        norm_num [npMedian, List.insertionSort, List.orderedInsert]
      have h2 : (if ([] : List ℚ) = [] then (none : Option ℚ)
          else safe_median (([] : List ℚ).map some)) = none := by simp
      rw [h1, h2, dom_diff_zero_right, dom_diff_none_right]

theorem c10_zero_numeric_absent_witness :
    (analyze [⟨"x", some 0, none, none⟩]).band = Band.unavailable :=
  c10_zero_numeric_absent.2.1 [⟨"x", some 0, none, none⟩] (by simp)

end RiskApp
